import Mathlib

/-!
Verification of the sih-crowd-counter repository: a shallow embedding of
`handler.py` (the YOLO endpoint handler), and `heatmap_gen.py` (region
matching, count aggregation and SVG heatmap rendering), with theorems
settling the specification claims.

Strings are modelled as `List Char`; Python byte strings as `List Nat`.
-/

namespace CrowdCount

/-! ## Generic string helpers (Python `str` operations used by the source) -/

/-- Python `s.lower()`: lowercase every character. -/
def lowerL (s : List Char) : List Char := s.map Char.toLower

/-- Python `s.replace(" ", "")`: drop every space character. -/
def dropSpaces (s : List Char) : List Char := s.filter (fun c => !(c = ' '))

/-- Whether `pat` is an initial segment of `s` (used to scan for substrings). -/
def startsWithL : List Char → List Char → Bool
  | _, [] => true
  | [], _ :: _ => false
  | c :: s, p :: ps => c = p && startsWithL s ps

/-- Python `pat in s`: `pat` occurs contiguously inside `s`. -/
def containsSub (pat : List Char) : List Char → Bool
  | [] => startsWithL [] pat
  | c :: s => startsWithL (c :: s) pat || containsSub pat s

/-! ## heatmap_gen.py: regions, filename matching -/

/-- A region loaded from `config/regions.json`: a name plus a rectangle. -/
structure HRegion where
  name : List Char
  x : Nat
  y : Nat
  width : Nat
  height : Nat
deriving DecidableEq, Repr

/-- Normalization `region["name"].replace(" ", "").lower()`: the normalized region name. -/
def normName (s : List Char) : List Char := lowerL (dropSpaces s)

/-- Function `assign_image_to_region` (heatmap_gen.py, lines 32-42): lowercase the
filename, then return the name of the first region in definition order whose
normalized name occurs in it, else `none`. -/
def assign_image_to_region (regions : List HRegion) (filename : List Char) :
    Option (List Char) :=
  let fn := lowerL filename
  match regions.find? (fun r => containsSub (normName r.name) fn) with
  | some r => some r.name
  | none => none

/-! ## heatmap_gen.py: the crowd-count dictionary -/

/-- Initialization of the counts dictionary at line 30: every region name maps to 0. -/
def initCounts (regions : List HRegion) : List (List Char × Nat) :=
  regions.map (fun r => (r.name, 0))

/-- Python `d.get(k, 0)` on an insertion-ordered dictionary. -/
def dGet (d : List (List Char × Nat)) (k : List Char) : Nat :=
  match d.find? (fun p => p.1 = k) with
  | some p => p.2
  | none => 0

/-- Python `d[k] += c` for a key already present: update it in place. -/
def dIncr (d : List (List Char × Nat)) (k : List Char) (c : Nat) :
    List (List Char × Nat) :=
  d.map (fun p => if p.1 = k then (p.1, p.2 + c) else p)

/-! ## heatmap_gen.py: per-image counts and the batch loop of `main` -/

/-- Outcome of the POST to the predict endpoint, as `get_crowd_count` sees it:
a JSON object (with or without a `count` field), a connection/HTTP error
(`requests.exceptions.RequestException`), or an unparsable body. -/
inductive ApiResp
  | ok (countField : Option Nat)
  | httpErr
  | badJson
deriving DecidableEq

/-- Function `get_crowd_count` (heatmap_gen.py, lines 44-62): `data.get("count", 0)` on
success, `0` on a request error or invalid JSON. -/
def get_crowd_count : ApiResp → Nat
  | .ok (some c) => c
  | .ok none => 0
  | .httpErr => 0
  | .badJson => 0

/-- One file of the image directory: its basename and the response the
predict endpoint would give for it. -/
structure BatchImage where
  filename : List Char
  resp : ApiResp
deriving DecidableEq

/-- Whether `pat` is a final segment of `s` (Python `endswith`). -/
def endsWithL (pat s : List Char) : Bool := startsWithL s.reverse pat.reverse

/-- The check `image_file.lower().endswith((".png", ".jpg", ".jpeg"))` (line 128). -/
def hasImageExt (name : List Char) : Bool :=
  endsWithL (String.toList ".png") (lowerL name)
    || endsWithL (String.toList ".jpg") (lowerL name)
    || endsWithL (String.toList ".jpeg") (lowerL name)

/-- The per-image loop of `main` (heatmap_gen.py, lines 127-137): for each
file with an image extension that matches a region,
`crowd_counts[region_name] += get_crowd_count(image_path)`. -/
def processImages (regions : List HRegion) (images : List BatchImage)
    (counts : List (List Char × Nat)) : List (List Char × Nat) :=
  images.foldl (fun cs img =>
    if hasImageExt img.filename then
      match assign_image_to_region regions img.filename with
      | some name => dIncr cs name (get_crowd_count img.resp)
      | none => cs
    else cs) counts

/-! ## heatmap_gen.py: `generate_heatmap` -/

/-- The color/opacity tier of `generate_heatmap` (lines 81-89): green up to 7,
orange up to 10, red above, each with opacity `0.6`. -/
def tierFor (count : Nat) : List Char × List Char :=
  if count ≤ 7 then (String.toList "#00FF00", String.toList "0.6")
  else if count ≤ 10 then (String.toList "#FFA500", String.toList "0.6")
  else (String.toList "#FF0000", String.toList "0.6")

/-- Decimal rendering of a number, as the f-string interpolates it. -/
def natStr (n : Nat) : List Char := (Nat.repr n).toList

/-- The `<rect .../>` element built at lines 92-95 from the stored geometry of a region and the tier color and opacity. -/
def rectFor (r : HRegion) (color opacity : List Char) : List Char :=
  String.toList "<rect x=\"" ++ natStr r.x ++ String.toList "\" y=\"" ++ natStr r.y
    ++ String.toList "\" width=\"" ++ natStr r.width
    ++ String.toList "\" height=\"" ++ natStr r.height
    ++ String.toList "\" fill=\"" ++ color
    ++ String.toList "\" fill-opacity=\"" ++ opacity ++ String.toList "\" />"

/-- The rectangle element for a region at a given count, plus the newline the
loop appends (`heatmap_rects += heatmap_rect + "\n"`, line 96). -/
def rectLine (r : HRegion) (count : Nat) : List Char :=
  rectFor r (tierFor count).1 (tierFor count).2 ++ ['\n']

/-- The accumulation loop of `generate_heatmap` (lines 76-97): one rectangle
per region with positive count, in definition order. -/
def heatmapRects (regions : List HRegion) (counts : List (List Char × Nat)) :
    List Char :=
  regions.foldl (fun acc r =>
    let c := dGet counts r.name
    if 0 < c then acc ++ rectLine r c else acc) []

/-- The insertion anchor: the closing root-element tag. -/
def svgAnchor : List Char := String.toList "</svg>"

/-- Python `s.replace(old, new)`: replace every non-overlapping occurrence,
scanning left to right.  Fueled by the length of `s`; the fuel suffices for
every nonempty pattern (the only use here is the nonempty `svgAnchor`). -/
def replaceAllGo (pat new : List Char) : Nat → List Char → List Char
  | 0, s => s
  | _ + 1, [] => []
  | fuel + 1, c :: s =>
    if startsWithL (c :: s) pat then
      new ++ replaceAllGo pat new fuel ((c :: s).drop pat.length)
    else c :: replaceAllGo pat new fuel s

/-- Python `s.replace(pat, new)`. -/
def replaceAll (pat new s : List Char) : List Char :=
  replaceAllGo pat new s.length s

/-- Result of `generate_heatmap` on a loaded SVG document: the rendered
document, or the distinguished "`</svg>` tag not found" failure branch of
lines 100-104 (which prints an error and produces no document). -/
inductive GenResult
  | ok (doc : List Char)
  | missingAnchor
deriving DecidableEq

/-- Function `generate_heatmap` (heatmap_gen.py, lines 76-104), applied to the loaded
SVG content: build the rectangles, then splice them in before the closing
`</svg>` tag via `svg_content.replace("</svg>", heatmap_rects + "</svg>")`;
fail when the document has no `</svg>` anchor. -/
def generate_heatmap (svg : List Char) (regions : List HRegion)
    (counts : List (List Char × Nat)) : GenResult :=
  if containsSub svgAnchor svg then
    .ok (replaceAll svgAnchor (heatmapRects regions counts ++ svgAnchor) svg)
  else .missingAnchor

/-! ## handler.py: `preprocess_image`, with Python floats as dyadic rationals

`ratio = max_size / max(image.size)` and `int(dim * ratio)` are IEEE-754
double-precision operations.  A positive normal double is `m * 2^e` with
`2^52 ≤ m < 2^53`; division and multiplication round the exact rational
result to the nearest such value, ties to even. -/

/-- Fueled `⌊log2 n⌋` (0 at 0), structurally recursive so it evaluates. -/
def lg2 : Nat → Nat → Nat
  | 0, _ => 0
  | fuel + 1, n => if n < 2 then 0 else lg2 fuel (n / 2) + 1

/-- Computes `⌊log2 n⌋` for every `n < 2^128` (all magnitudes arising here). -/
def log2n (n : Nat) : Nat := lg2 128 n

/-- Does `2^k ≤ p / q` hold exactly? -/
def qpow2LE (p q : Nat) (k : Int) : Bool :=
  if 0 ≤ k then q * 2 ^ k.toNat ≤ p else q ≤ p * 2 ^ (-k).toNat

/-- Computes `⌊log2 (p/q)⌋` for positive `p`, `q`. -/
def floorLg (p q : Nat) : Int :=
  let g : Int := (log2n p : Int) - (log2n q : Int)
  if qpow2LE p q (g + 1) then g + 1
  else if qpow2LE p q g then g
  else g - 1

/-- Round `a / b` to the nearest integer, ties to even. -/
def roundDiv (a b : Nat) : Nat :=
  let d := a / b
  let r := a % b
  if 2 * r < b then d
  else if b < 2 * r then d + 1
  else if d % 2 = 0 then d
  else d + 1

/-- A positive double: value `m * 2^e` with `2^52 ≤ m < 2^53`. -/
structure Fp where
  m : Nat
  e : Int
deriving DecidableEq

/-- Round the positive rational `p / q` to the nearest double, ties to even
(all values arising here are normal and far from overflow). -/
def roundPos (p q : Nat) : Fp :=
  let k := floorLg p q
  let t : Int := 52 - k
  let m :=
    if 0 ≤ t then roundDiv (p * 2 ^ t.toNat) q
    else roundDiv p (q * 2 ^ (-t).toNat)
  if m < 2 ^ 53 then ⟨m, k - 52⟩ else ⟨2 ^ 52, k - 51⟩

/-- Exact comparison `f < 1` on a positive double. -/
def fpLtOne (f : Fp) : Bool :=
  if f.e < 0 then f.m < 2 ^ (-f.e).toNat else false

/-- Double multiplication by a small natural number (which converts to
double exactly): round the exact product. -/
def fpMulNat (f : Fp) (n : Nat) : Fp :=
  let r := roundPos (f.m * n) 1
  ⟨r.m, r.e + f.e⟩

/-- Python `int(f)` on a positive double: truncate. -/
def fpTrunc (f : Fp) : Nat :=
  if 0 ≤ f.e then f.m * 2 ^ f.e.toNat else f.m / 2 ^ (-f.e).toNat

/-- Method `EndpointHandler.preprocess_image` (handler.py, lines 54-66) on the image
dimensions: `ratio = 640 / max(image.size)`; resize to
`tuple(int(dim * ratio) for dim in image.size)` only when `ratio < 1`. -/
def preprocess_image (w h : Nat) : Nat × Nat :=
  let mx := max w h
  let scale := roundPos 640 mx
  if fpLtOne scale then (fpTrunc (fpMulNat scale w), fpTrunc (fpMulNat scale h))
  else (w, h)

/-! ## handler.py: `EndpointHandler.__call__` -/

/-- The value of `results` as the result-processing block sees it: falsy or
empty (`not results or len(results) == 0`); a first result whose boxes carry
these class identifiers (`int(box.cls[0])` for each `box` in
`results[0].boxes`); or a first result whose boxes raise when processed. -/
inductive DetectionResults
  | falsyOrEmpty
  | withBoxes (classIds : List Nat)
  | badBoxes
deriving DecidableEq

/-- Outcome of `self._model(image)`: an exception, or a detection result. -/
inductive InferOutcome
  | raises
  | returns (r : DetectionResults)
deriving DecidableEq

/-- The dictionary `__call__` returns: an optional `count` field, whether a
`processing_time` field is present (its value is wall-clock text), and an
optional `error` message. -/
structure Resp where
  count : Option Nat
  hasProcessingTime : Bool
  error : Option (List Char)
deriving DecidableEq

/-- An error-shaped response `{"error": msg}`. -/
def respError (msg : List Char) : Resp := ⟨none, false, some msg⟩

/-- Method `EndpointHandler.__call__` (handler.py, lines 71-129).  `initialized` and
`hasModel` are `self.initialized` and `self._model is not None`; `inputs` is
`data["inputs"]` when the key is present; `decode` is the outcome of
`Image.open(io.BytesIO(image_bytes)).convert("RGB")` (dimensions of the
decoded image, or `none` when decoding raises); `infer` is the outcome of
running the model on the preprocessed image. -/
def handlerCall (initialized hasModel : Bool) (inputs : Option (List Nat))
    (decode : List Nat → Option (Nat × Nat))
    (infer : Nat × Nat → InferOutcome) : Resp :=
  if !initialized || !hasModel then respError (String.toList "Model not initialized")
  else
    match inputs with
    | none => respError (String.toList "No \x27inputs\x27 key in request data")
    | some imageBytes =>
      if 10 * 1024 * 1024 < imageBytes.length then
        respError (String.toList "Image size too large")
      else
        match decode imageBytes with
        | none => respError (String.toList "Failed to process image")
        | some img =>
          match infer (preprocess_image img.1 img.2) with
          | .raises => respError (String.toList "Model inference failed")
          | .returns .falsyOrEmpty => ⟨some 0, false, none⟩
          | .returns (.withBoxes classIds) =>
              ⟨some (classIds.filter (fun c => c = 0)).length, true, none⟩
          | .returns .badBoxes =>
              respError (String.toList "Failed to process detection results")

/-! ## handler.py: the singleton construction race

`EndpointHandler.__new__`/`__init__` (lines 20-52) perform lock-free
check-then-act on the class attributes `_instance` and `_model` and on the
instance attribute `initialized`.  Each caller of `EndpointHandler()` runs
the straight-line program below; the shared state records the class
attributes and how many times `YOLO(...)` was constructed.  (The model keeps
one shared `initialized` flag, matching executions in which `__new__` hands
every caller the same instance.) -/

/-- Program counter of one caller of `EndpointHandler()`. -/
inductive Pc
  | checkInstance
  | makeInstance
  | checkInit
  | checkModel
  | loadModel
  | setInit
  | done
deriving DecidableEq

/-- Shared state: `cls._instance is not None`, `cls._model is not None`,
`hasattr(self, "initialized")`, and the number of `YOLO(...)` loads run. -/
structure SState where
  instanceExists : Bool
  modelLoaded : Bool
  initFlag : Bool
  loads : Nat
deriving DecidableEq

/-- One atomic step of a caller: each step reads or writes one shared
attribute, the granularity at which CPython can interleave threads. -/
def threadStep (s : SState) (pc : Pc) : SState × Pc :=
  match pc with
  | .checkInstance => if s.instanceExists then (s, .checkInit) else (s, .makeInstance)
  | .makeInstance => ({ s with instanceExists := true }, .checkInit)
  | .checkInit => if s.initFlag then (s, .done) else (s, .checkModel)
  | .checkModel => if s.modelLoaded then (s, .setInit) else (s, .loadModel)
  | .loadModel => ({ s with modelLoaded := true, loads := s.loads + 1 }, .setInit)
  | .setInit => ({ s with initFlag := true }, .done)
  | .done => (s, .done)

/-- A system of concurrent callers: shared state plus each caller's pc. -/
structure SysConfig where
  shared : SState
  threads : List Pc
deriving DecidableEq

/-- Run one step of the caller at index `i` (no-op on a bad index). -/
def sysStep (c : SysConfig) (i : Nat) : SysConfig :=
  match c.threads.get? i with
  | some pc =>
    let r := threadStep c.shared pc
    { shared := r.1, threads := c.threads.set i r.2 }
  | none => c

/-- Run a schedule: at each tick the named caller takes one step. -/
def sysRun (c : SysConfig) : List Nat → SysConfig
  | [] => c
  | i :: rest => sysRun (sysStep c i) rest

/-- Fresh system: `n` callers about to construct `EndpointHandler()` in a fresh process. -/
def initSys (n : Nat) : SysConfig :=
  { shared := ⟨false, false, false, 0⟩, threads := List.replicate n .checkInstance }

/-- Run a single caller to completion from shared state `s` (six steps
complete any caller). -/
def runSteps : Nat → SState × Pc → SState × Pc
  | 0, r => r
  | n + 1, r => runSteps n (threadStep r.1 r.2)

/-- The shared state after one caller runs `EndpointHandler()` alone. -/
def callerRun (s : SState) : SState := (runSteps 6 (s, .checkInstance)).1

/-- The shared state after `n` callers run strictly one after another. -/
def seqCallers : Nat → SState
  | 0 => ⟨false, false, false, 0⟩
  | n + 1 => callerRun (seqCallers n)

/-! ## Helper lemmas: substring scanning and replacement -/

theorem startsWithL_nil_pat (s : List Char) : startsWithL s [] = true := by
  cases s <;> rfl

theorem startsWithL_append_self (a b : List Char) : startsWithL (a ++ b) a = true := by
  induction a with
  | nil => exact startsWithL_nil_pat b
  | cons c cs ih => simp [startsWithL, ih]

theorem containsSub_nil_pat (l : List Char) : containsSub [] l = true := by
  cases l with
  | nil => rfl
  | cons c s => simp [containsSub, startsWithL]

theorem containsSub_split (pat p q : List Char) :
    containsSub pat (p ++ (pat ++ q)) = true := by
  induction p with
  | nil =>
    cases pat with
    | nil => simpa using containsSub_nil_pat q
    | cons c ps =>
      show containsSub (c :: ps) (c :: (ps ++ q)) = true
      rw [containsSub]
      have h : startsWithL (c :: (ps ++ q)) (c :: ps) = true :=
        startsWithL_append_self (c :: ps) q
      simp [h]
  | cons c p' ih =>
    show containsSub pat (c :: (p' ++ (pat ++ q))) = true
    rw [containsSub, ih]
    simp

theorem replaceAllGo_no_occ (pat new : List Char) :
    ∀ (fuel : Nat) (s : List Char), s.length ≤ fuel →
      containsSub pat s = false → replaceAllGo pat new fuel s = s := by
  intro fuel
  induction fuel with
  | zero => intro s _ _; rfl
  | succ f ih =>
    intro s hlen hocc
    cases s with
    | nil => rfl
    | cons c s' =>
      rw [containsSub, Bool.or_eq_false_iff] at hocc
      rw [replaceAllGo, if_neg (by simp [hocc.1])]
      have hl : s'.length ≤ f := by
        simp only [List.length_cons] at hlen
        omega
      rw [ih s' hl hocc.2]

theorem replaceAllGo_first (pat new q : List Char) (hpat : pat ≠ [])
    (honly : containsSub pat q = false) :
    ∀ (p : List Char) (fuel : Nat), (p ++ (pat ++ q)).length ≤ fuel →
      (∀ j, j < p.length → startsWithL ((p ++ (pat ++ q)).drop j) pat = false) →
      replaceAllGo pat new fuel (p ++ (pat ++ q)) = p ++ (new ++ q) := by
  intro p
  induction p with
  | nil =>
    intro fuel hlen _
    cases pat with
    | nil => exact absurd rfl hpat
    | cons a ps =>
      cases fuel with
      | zero => simp at hlen
      | succ f =>
        show replaceAllGo (a :: ps) new (f + 1) (a :: (ps ++ q)) = [] ++ (new ++ q)
        rw [replaceAllGo, if_pos (show startsWithL (a :: (ps ++ q)) (a :: ps) = true from
          startsWithL_append_self (a :: ps) q)]
        have hdrop : (a :: (ps ++ q)).drop (a :: ps).length = q := by
          exact List.drop_left (a :: ps) q
        rw [hdrop]
        have hq : q.length ≤ f := by
          simp only [List.length_append, List.length_cons] at hlen
          omega
        rw [replaceAllGo_no_occ (a :: ps) new f q hq honly]
        simp
  | cons c p' ih =>
    intro fuel hlen hfirst
    cases fuel with
    | zero => simp at hlen
    | succ f =>
      show replaceAllGo pat new (f + 1) (c :: (p' ++ (pat ++ q))) = (c :: p') ++ (new ++ q)
      have h0 : startsWithL (c :: (p' ++ (pat ++ q))) pat = false := by
        have := hfirst 0 (by simp)
        simpa using this
      rw [replaceAllGo, if_neg (by simp [h0])]
      have hlen' : (p' ++ (pat ++ q)).length ≤ f := by
        simp only [List.cons_append, List.length_cons] at hlen
        omega
      have hfirst' : ∀ j, j < p'.length →
          startsWithL ((p' ++ (pat ++ q)).drop j) pat = false := by
        intro j hj
        have := hfirst (j + 1) (by simpa using Nat.succ_lt_succ hj)
        simpa using this
      rw [ih f hlen' hfirst']
      simp

theorem replaceAll_first (pat new p q : List Char) (hpat : pat ≠ [])
    (honly : containsSub pat q = false)
    (hfirst : ∀ j, j < p.length → startsWithL ((p ++ (pat ++ q)).drop j) pat = false) :
    replaceAll pat new (p ++ (pat ++ q)) = p ++ (new ++ q) :=
  replaceAllGo_first pat new q hpat honly p (p ++ (pat ++ q)).length Nat.le.refl hfirst

/-! ## Helper lemmas: the rectangle accumulation loop -/

theorem heatmapRects_foldl (counts : List (List Char × Nat)) :
    ∀ (regions : List HRegion) (acc : List Char),
      regions.foldl (fun acc r =>
          let c := dGet counts r.name
          if 0 < c then acc ++ rectLine r c else acc) acc
        = acc ++ ((regions.filter (fun r => 0 < dGet counts r.name)).map
            (fun r => rectLine r (dGet counts r.name))).flatten := by
  intro regions
  induction regions with
  | nil => intro acc; simp
  | cons r rs ih =>
    intro acc
    by_cases h : 0 < dGet counts r.name
    · simp only [List.foldl_cons, List.filter_cons, if_pos h, decide_eq_true h, ih,
        List.map_cons, List.flatten_cons, List.append_assoc, ite_true]
    · simp only [List.foldl_cons, List.filter_cons, if_neg h, ih, List.map_cons]
      have hd : decide (0 < dGet counts r.name) = false := decide_eq_false h
      simp [hd]

theorem heatmapRects_eq (regions : List HRegion) (counts : List (List Char × Nat)) :
    heatmapRects regions counts
      = ((regions.filter (fun r => 0 < dGet counts r.name)).map
          (fun r => rectLine r (dGet counts r.name))).flatten := by
  simpa using heatmapRects_foldl counts regions []

/-! ## Claim C6: filename-to-region matching -/

/-- C6: `assign_image_to_region` returns the first region in definition
order whose name, lowercased with spaces stripped, occurs as a substring of
the lowercased filename; it returns `none` when no normalized region name
occurs; and on the region document `[{"name": "Lobby", ...}]` with filename
`lobby_img1.jpg` it returns `Lobby`. -/
theorem C6_first_match (filename : List Char) :
    (∀ (regions : List HRegion),
        (∀ r ∈ regions, containsSub (normName r.name) (lowerL filename) = false) →
        assign_image_to_region regions filename = none)
    ∧ (∀ (l₁ l₂ : List HRegion) (r : HRegion),
        (∀ r₁ ∈ l₁, containsSub (normName r₁.name) (lowerL filename) = false) →
        containsSub (normName r.name) (lowerL filename) = true →
        assign_image_to_region (l₁ ++ r :: l₂) filename = some r.name)
    ∧ assign_image_to_region [⟨String.toList "Lobby", 0, 0, 10, 10⟩]
        (String.toList "lobby_img1.jpg") = some (String.toList "Lobby") := by
  refine ⟨?_, ?_, by decide⟩
  · intro regions hnone
    have h : regions.find? (fun r => containsSub (normName r.name) (lowerL filename))
        = none := by
      rw [List.find?_eq_none]
      intro r hr
      simp [hnone r hr]
    simp [assign_image_to_region, h]
  · intro l₁ l₂ r hbefore hmatch
    induction l₁ with
    | nil =>
      have h : (r :: l₂).find? (fun r => containsSub (normName r.name) (lowerL filename))
          = some r := List.find?_cons_of_pos l₂ hmatch
      simp [assign_image_to_region, h]
    | cons r₁ l₁' ih =>
      have h₁ : containsSub (normName r₁.name) (lowerL filename) = false :=
        hbefore r₁ (by simp)
      have ih' := ih (fun x hx => hbefore x (by simp [hx]))
      simp only [assign_image_to_region, List.cons_append] at ih' ⊢
      rw [List.find?_cons_of_neg _ (by simp [h₁])]
      exact ih'

/-- Witness for C6: a concrete non-matching document returns `none`, and a
concrete two-region document returns the first matching region. -/
theorem C6_first_match_witness :
    assign_image_to_region [⟨String.toList "Kitchen", 0, 0, 4, 4⟩]
        (String.toList "lobby_img1.jpg") = none
    ∧ assign_image_to_region
        [⟨String.toList "Kitchen", 0, 0, 4, 4⟩, ⟨String.toList "Lobby", 0, 0, 10, 10⟩]
        (String.toList "lobby_img1.jpg") = some (String.toList "Lobby") :=
  ⟨(C6_first_match (String.toList "lobby_img1.jpg")).1 _ (by decide),
   (C6_first_match (String.toList "lobby_img1.jpg")).2.1
     [⟨String.toList "Kitchen", 0, 0, 4, 4⟩] [] ⟨String.toList "Lobby", 0, 0, 10, 10⟩
     (by decide) (by decide)⟩

/-! ## Claim C8: missing insertion anchor -/

/-- C8: on a base document that does not contain the closing `</svg>` tag,
`generate_heatmap` takes its distinguished failure branch (the
`MalformedBaseDocument` error kind) and produces no document. -/
theorem C8_missing_anchor (svg : List Char) (regions : List HRegion)
    (counts : List (List Char × Nat)) (h : containsSub svgAnchor svg = false) :
    generate_heatmap svg regions counts = GenResult.missingAnchor := by
  simp [generate_heatmap, h]

/-- Witness for C8: an SVG fragment with no closing tag fails. -/
theorem C8_missing_anchor_witness :
    generate_heatmap (String.toList "<svg>") [] [] = GenResult.missingAnchor :=
  C8_missing_anchor _ _ _ (by decide)

/-! ## Claim C7: heatmap rendering -/

/-- C7: on a base document whose closing `</svg>` tag occurs exactly once
(it is preceded by `p` and followed by `q`, the tag starts at no earlier
position, and `q` contains no further tag), `generate_heatmap` emits exactly
one rectangle per region with positive aggregate count, in region definition
order, each positioned and sized from the stored geometry of the region and
filled with its tier color, emits nothing for regions with count 0, and
splices the rectangles immediately before the closing tag; the tiers are
green for counts up to 7, orange up to 10, red above, all at opacity 0.6. -/
theorem C7_render (regions : List HRegion) (counts : List (List Char × Nat))
    (p q : List Char)
    (hfirst : ∀ j, j < p.length →
      startsWithL ((p ++ (svgAnchor ++ q)).drop j) svgAnchor = false)
    (honly : containsSub svgAnchor q = false) :
    generate_heatmap (p ++ (svgAnchor ++ q)) regions counts
      = GenResult.ok (p ++ (((regions.filter (fun r => 0 < dGet counts r.name)).map
            (fun r => rectLine r (dGet counts r.name))).flatten ++ (svgAnchor ++ q)))
    ∧ (∀ c, 0 < c → c ≤ 7 →
        tierFor c = (String.toList "#00FF00", String.toList "0.6"))
    ∧ (∀ c, 7 < c → c ≤ 10 →
        tierFor c = (String.toList "#FFA500", String.toList "0.6"))
    ∧ (∀ c, 10 < c →
        tierFor c = (String.toList "#FF0000", String.toList "0.6")) := by
  refine ⟨?_, ?_, ?_, ?_⟩
  · have hguard : containsSub svgAnchor (p ++ (svgAnchor ++ q)) = true :=
      containsSub_split svgAnchor p q
    have hrepl := replaceAll_first svgAnchor (heatmapRects regions counts ++ svgAnchor)
      p q (by decide) honly hfirst
    rw [generate_heatmap, if_pos hguard, hrepl, heatmapRects_eq]
    simp [List.append_assoc]
  · intro c _ h7
    simp [tierFor, h7]
  · intro c h7 h10
    have : ¬ c ≤ 7 := by omega
    simp [tierFor, this, h10]
  · intro c h10
    have h7 : ¬ c ≤ 7 := by omega
    have h10' : ¬ c ≤ 10 := by omega
    simp [tierFor, h7, h10']

/-- Witness for C7: a concrete document with one `Lobby` region at count 12
(red tier) and one `Hall` region at count 0 (no rectangle). -/
theorem C7_render_witness :
    generate_heatmap (String.toList "<svg>" ++ (svgAnchor ++ []))
        [⟨String.toList "Lobby", 0, 0, 10, 10⟩, ⟨String.toList "Hall", 5, 5, 3, 3⟩]
        [(String.toList "Lobby", 12), (String.toList "Hall", 0)]
      = GenResult.ok (String.toList "<svg>"
          ++ ((([⟨String.toList "Lobby", 0, 0, 10, 10⟩, ⟨String.toList "Hall", 5, 5, 3, 3⟩].filter
                (fun r => 0 < dGet [(String.toList "Lobby", 12), (String.toList "Hall", 0)] r.name)).map
              (fun r => rectLine r (dGet [(String.toList "Lobby", 12), (String.toList "Hall", 0)] r.name))).flatten
            ++ (svgAnchor ++ [])))
    ∧ tierFor 12 = (String.toList "#FF0000", String.toList "0.6") :=
  ⟨(C7_render [⟨String.toList "Lobby", 0, 0, 10, 10⟩, ⟨String.toList "Hall", 5, 5, 3, 3⟩]
      [(String.toList "Lobby", 12), (String.toList "Hall", 0)]
      (String.toList "<svg>") [] (by decide) (by decide)).1,
   (C7_render [⟨String.toList "Lobby", 0, 0, 10, 10⟩, ⟨String.toList "Hall", 5, 5, 3, 3⟩]
      [(String.toList "Lobby", 12), (String.toList "Hall", 0)]
      (String.toList "<svg>") [] (by decide) (by decide)).2.2.2 12 (by decide)⟩

/-! ## Helper lemmas: the crowd-count dictionary -/

theorem dGet_cons_pos (p : List Char × Nat) (d : List (List Char × Nat))
    (k : List Char) (h : p.1 = k) : dGet (p :: d) k = p.2 := by
  have hfind : List.find? (fun q => decide (q.1 = k)) (p :: d) = some p :=
    List.find?_cons_of_pos d (by simp [h])
  simp [dGet, hfind]

theorem dGet_cons_neg (p : List Char × Nat) (d : List (List Char × Nat))
    (k : List Char) (h : ¬ p.1 = k) : dGet (p :: d) k = dGet d k := by
  have hfind : List.find? (fun q => decide (q.1 = k)) (p :: d)
      = List.find? (fun q => decide (q.1 = k)) d :=
    List.find?_cons_of_neg d (by simp [h])
  simp [dGet, hfind]

theorem dIncr_cons (p : List Char × Nat) (d : List (List Char × Nat))
    (k : List Char) (c : Nat) :
    dIncr (p :: d) k c = (if p.1 = k then (p.1, p.2 + c) else p) :: dIncr d k c := rfl

theorem dGet_initCounts (regions : List HRegion) (k : List Char) :
    dGet (initCounts regions) k = 0 := by
  induction regions with
  | nil => rfl
  | cons r rs ih =>
    by_cases h : r.name = k
    · show dGet ((r.name, 0) :: initCounts rs) k = 0
      rw [dGet_cons_pos _ _ _ h]
    · show dGet ((r.name, 0) :: initCounts rs) k = 0
      rw [dGet_cons_neg _ _ _ h]
      exact ih

theorem keys_dIncr (d : List (List Char × Nat)) (k : List Char) (c : Nat) :
    (dIncr d k c).map (fun p => p.1) = d.map (fun p => p.1) := by
  induction d with
  | nil => rfl
  | cons p d' ih =>
    rw [dIncr_cons]
    by_cases h : p.1 = k
    · simp only [if_pos h, List.map_cons, ih]
    · simp only [if_neg h, List.map_cons, ih]

theorem dGet_dIncr_self (d : List (List Char × Nat)) (k : List Char) (c : Nat)
    (h : k ∈ d.map (fun p => p.1)) :
    dGet (dIncr d k c) k = dGet d k + c := by
  induction d with
  | nil => simp at h
  | cons p d' ih =>
    rw [dIncr_cons]
    by_cases hp : p.1 = k
    · rw [if_pos hp, dGet_cons_pos (p.1, p.2 + c) _ _ hp, dGet_cons_pos p _ _ hp]
    · have h' : k ∈ d'.map (fun p => p.1) := by
        simp only [List.map_cons, List.mem_cons] at h
        exact h.resolve_left (fun he => hp he.symm)
      rw [if_neg hp, dGet_cons_neg _ _ _ hp, dGet_cons_neg _ _ _ hp]
      exact ih h'

theorem dGet_dIncr_ne (d : List (List Char × Nat)) (k k' : List Char) (c : Nat)
    (h : k' ≠ k) :
    dGet (dIncr d k c) k' = dGet d k' := by
  induction d with
  | nil => rfl
  | cons p d' ih =>
    rw [dIncr_cons]
    by_cases hp : p.1 = k
    · have hq : ¬ p.1 = k' := fun he => h (he.symm.trans hp)
      rw [if_pos hp, dGet_cons_neg _ _ _ (by simpa using hq), dGet_cons_neg _ _ _ hq]
      exact ih
    · rw [if_neg hp]
      by_cases hq : p.1 = k'
      · rw [dGet_cons_pos _ _ _ hq, dGet_cons_pos _ _ _ hq]
      · rw [dGet_cons_neg _ _ _ hq, dGet_cons_neg _ _ _ hq]
        exact ih

theorem dGet_dIncr_ge (d : List (List Char × Nat)) (k k' : List Char) (c : Nat) :
    dGet d k' ≤ dGet (dIncr d k c) k' := by
  induction d with
  | nil => exact Nat.le.refl
  | cons p d' ih =>
    rw [dIncr_cons]
    by_cases hp : p.1 = k
    · by_cases hq : p.1 = k'
      · rw [if_pos hp, dGet_cons_pos p _ _ hq, dGet_cons_pos (p.1, p.2 + c) _ _ hq]
        exact Nat.le_add_right _ _
      · rw [if_pos hp, dGet_cons_neg p _ _ hq, dGet_cons_neg (p.1, p.2 + c) _ _ hq]
        exact ih
    · rw [if_neg hp]
      by_cases hq : p.1 = k'
      · rw [dGet_cons_pos p _ _ hq, dGet_cons_pos p _ _ hq]
      · rw [dGet_cons_neg p _ _ hq, dGet_cons_neg p _ _ hq]
        exact ih

theorem dIncr_zero (d : List (List Char × Nat)) (k : List Char) :
    dIncr d k 0 = d := by
  induction d with
  | nil => rfl
  | cons p d' ih =>
    rw [dIncr_cons, ih]
    by_cases h : p.1 = k
    · simp [if_pos h]
    · rw [if_neg h]

theorem assign_mem (regions : List HRegion) (fn name : List Char)
    (h : assign_image_to_region regions fn = some name) :
    name ∈ regions.map (fun r => r.name) := by
  simp only [assign_image_to_region] at h
  rcases hr : regions.find? (fun r => containsSub (normName r.name) (lowerL fn)) with
    _ | r
  · rw [hr] at h; simp at h
  · rw [hr] at h
    simp only [Option.some.injEq] at h
    subst h
    exact List.mem_map_of_mem _ (List.mem_of_find?_eq_some hr)

theorem processImages_cons (regions : List HRegion) (i : BatchImage)
    (is : List BatchImage) (cs : List (List Char × Nat)) :
    processImages regions (i :: is) cs
      = processImages regions is
          (if hasImageExt i.filename then
            match assign_image_to_region regions i.filename with
            | some name => dIncr cs name (get_crowd_count i.resp)
            | none => cs
          else cs) := rfl

theorem keys_processImages (regions : List HRegion) :
    ∀ (images : List BatchImage) (cs : List (List Char × Nat)),
      (processImages regions images cs).map (fun p => p.1) = cs.map (fun p => p.1) := by
  intro images
  induction images with
  | nil => intro cs; rfl
  | cons i is ih =>
    intro cs
    by_cases hext : hasImageExt i.filename
    · rcases ha : assign_image_to_region regions i.filename with _ | nm
      · have hstep : processImages regions (i :: is) cs = processImages regions is cs := by
          simp [processImages_cons, hext, ha]
        rw [hstep]
        exact ih cs
      · have hstep : processImages regions (i :: is) cs
            = processImages regions is (dIncr cs nm (get_crowd_count i.resp)) := by
          simp [processImages_cons, hext, ha]
        rw [hstep, ih, keys_dIncr]
    · have hstep : processImages regions (i :: is) cs = processImages regions is cs := by
        simp [processImages_cons, hext]
      rw [hstep]
      exact ih cs

theorem processImages_dGet (regions : List HRegion) (name : List Char) :
    ∀ (images : List BatchImage) (cs : List (List Char × Nat)),
      (∀ r ∈ regions, r.name ∈ cs.map (fun p => p.1)) →
      dGet (processImages regions images cs) name
        = dGet cs name
          + ((images.filter (fun i => hasImageExt i.filename
                && decide (assign_image_to_region regions i.filename = some name))).map
              (fun i => get_crowd_count i.resp)).sum := by
  intro images
  induction images with
  | nil => intro cs _; simp [processImages]
  | cons i is ih =>
    intro cs hkeys
    rw [List.filter_cons]
    by_cases hext : hasImageExt i.filename
    · rcases ha : assign_image_to_region regions i.filename with _ | nm
      · have hstep : processImages regions (i :: is) cs = processImages regions is cs := by
          simp [processImages_cons, hext, ha]
        rw [hstep, ih cs hkeys]
        simp
      · have hmem : nm ∈ cs.map (fun p => p.1) := by
          rcases List.mem_map.mp (assign_mem regions i.filename nm ha) with ⟨r, hr, hrn⟩
          exact hrn ▸ hkeys r hr
        have hkeys' : ∀ r ∈ regions, r.name ∈ (dIncr cs nm (get_crowd_count i.resp)).map
            (fun p => p.1) := by
          intro r hr
          rw [keys_dIncr]
          exact hkeys r hr
        have hstep : processImages regions (i :: is) cs
            = processImages regions is (dIncr cs nm (get_crowd_count i.resp)) := by
          simp [processImages_cons, hext, ha]
        by_cases hnm : nm = name
        · subst hnm
          rw [hstep, ih _ hkeys', dGet_dIncr_self cs nm _ hmem]
          simp [hext]
          omega
        · rw [hstep, ih _ hkeys', dGet_dIncr_ne cs nm name _ (fun he => hnm he.symm)]
          simp [hnm]
    · have hstep : processImages regions (i :: is) cs = processImages regions is cs := by
        simp [processImages_cons, hext]
      rw [hstep, ih cs hkeys]
      simp [hext]

theorem processImages_mono (regions : List HRegion) (name : List Char) :
    ∀ (images : List BatchImage) (cs : List (List Char × Nat)),
      dGet cs name ≤ dGet (processImages regions images cs) name := by
  intro images
  induction images with
  | nil => intro cs; exact Nat.le.refl
  | cons i is ih =>
    intro cs
    by_cases hext : hasImageExt i.filename
    · rcases ha : assign_image_to_region regions i.filename with _ | nm
      · have hstep : processImages regions (i :: is) cs = processImages regions is cs := by
          simp [processImages_cons, hext, ha]
        rw [hstep]
        exact ih cs
      · have hstep : processImages regions (i :: is) cs
            = processImages regions is (dIncr cs nm (get_crowd_count i.resp)) := by
          simp [processImages_cons, hext, ha]
        rw [hstep]
        exact Nat.le_trans (dGet_dIncr_ge cs nm name _) (ih _)
    · have hstep : processImages regions (i :: is) cs = processImages regions is cs := by
        simp [processImages_cons, hext]
      rw [hstep]
      exact ih cs

/-! ## Claim C9: aggregation is additive and monotone -/

/-- C9: starting from the zero-initialized `crowd_counts`, the total recorded
for any region name after a batch run equals the sum of all per-image counts
accumulated into that name (in particular 0 for untouched regions), and
per-region totals never decrease as the run processes further images. -/
theorem C9_aggregate_sums (regions : List HRegion) (images more : List BatchImage)
    (counts : List (List Char × Nat)) (name : List Char) :
    dGet (processImages regions images (initCounts regions)) name
      = ((images.filter (fun i => hasImageExt i.filename
            && decide (assign_image_to_region regions i.filename = some name))).map
          (fun i => get_crowd_count i.resp)).sum
    ∧ dGet (processImages regions images counts) name
        ≤ dGet (processImages regions (images ++ more) counts) name := by
  constructor
  · have hkeys : ∀ r ∈ regions, r.name ∈ (initCounts regions).map (fun p => p.1) := by
      intro r hr
      have : (initCounts regions).map (fun p => p.1) = regions.map (fun r => r.name) := by
        simp [initCounts]
      rw [this]
      exact List.mem_map_of_mem _ hr
    rw [processImages_dGet regions name images (initCounts regions) hkeys,
      dGet_initCounts]
    simp
  · have happ : processImages regions (images ++ more) counts
        = processImages regions more (processImages regions images counts) := by
      simp [processImages, List.foldl_append]
    rw [happ]
    exact processImages_mono regions name more (processImages regions images counts)

/-! ## Claim C10: a failed per-image request counts as zero -/

/-- C10: when the request for an image fails (connection/HTTP error or
unparsable JSON), `get_crowd_count` yields 0, so the batch loop leaves every
running total exactly as if that image were absent, and still processes the
remaining images. -/
theorem C10_failed_request (regions : List HRegion) (xs ys : List BatchImage)
    (img : BatchImage) (counts : List (List Char × Nat))
    (h : img.resp = ApiResp.httpErr ∨ img.resp = ApiResp.badJson) :
    get_crowd_count img.resp = 0
    ∧ processImages regions (xs ++ img :: ys) counts
        = processImages regions (xs ++ ys) counts := by
  have hz : get_crowd_count img.resp = 0 := by
    rcases h with h | h <;> rw [h] <;> rfl
  refine ⟨hz, ?_⟩
  have happ1 : processImages regions (xs ++ img :: ys) counts
      = processImages regions (img :: ys) (processImages regions xs counts) := by
    simp [processImages, List.foldl_append]
  have happ2 : processImages regions (xs ++ ys) counts
      = processImages regions ys (processImages regions xs counts) := by
    simp [processImages, List.foldl_append]
  rw [happ1, happ2, processImages_cons]
  by_cases hext : hasImageExt img.filename
  · rcases ha : assign_image_to_region regions img.filename with _ | nm
    · simp [hext, ha]
    · simp [hext, ha, hz, dIncr_zero]
  · simp [hext]

/-- Witness for C10: a concrete batch where the request for the middle image
fails with a connection error leaves the aggregate untouched by it. -/
theorem C10_failed_request_witness :
    get_crowd_count (BatchImage.mk (String.toList "lobby_a.jpg") ApiResp.httpErr).resp = 0
    ∧ processImages [⟨String.toList "Lobby", 0, 0, 10, 10⟩]
        ([⟨String.toList "lobby_1.jpg", ApiResp.ok (some 3)⟩]
          ++ ⟨String.toList "lobby_a.jpg", ApiResp.httpErr⟩
            :: [⟨String.toList "lobby_2.jpg", ApiResp.ok (some 4)⟩])
        (initCounts [⟨String.toList "Lobby", 0, 0, 10, 10⟩])
      = processImages [⟨String.toList "Lobby", 0, 0, 10, 10⟩]
          ([⟨String.toList "lobby_1.jpg", ApiResp.ok (some 3)⟩]
            ++ [⟨String.toList "lobby_2.jpg", ApiResp.ok (some 4)⟩])
          (initCounts [⟨String.toList "Lobby", 0, 0, 10, 10⟩]) :=
  C10_failed_request [⟨String.toList "Lobby", 0, 0, 10, 10⟩]
    [⟨String.toList "lobby_1.jpg", ApiResp.ok (some 3)⟩]
    [⟨String.toList "lobby_2.jpg", ApiResp.ok (some 4)⟩]
    ⟨String.toList "lobby_a.jpg", ApiResp.httpErr⟩
    (initCounts [⟨String.toList "Lobby", 0, 0, 10, 10⟩])
    (Or.inl rfl)

/-! ## Claim C1: result interpretation -/

/-- Counterexample to C1 as stated: a malformed detection result (one whose
boxes raise while being processed) makes `__call__` return the error
`Failed to process detection results`, not a successful count of 0. -/
theorem C1_counterexample :
    (handlerCall true true (some [0]) (fun _ => some (1, 1))
        (fun _ => .returns .badBoxes)).count = none
    ∧ (handlerCall true true (some [0]) (fun _ => some (1, 1))
        (fun _ => .returns .badBoxes)).error
      = some (String.toList "Failed to process detection results") := by
  decide

/-- C1 (amended): with the model ready and a decodable, size-admissible
input, an empty/falsy detection result yields the successful count 0; a
well-formed detection result yields a successful count equal to the number
of detections of class identifier 0 (in particular 0 when no detection has
class 0); but a malformed detection result yields the error
`Failed to process detection results` rather than a count. -/
theorem C1_person_count (decode : List Nat → Option (Nat × Nat))
    (infer : Nat × Nat → InferOutcome) (bytes : List Nat) (img : Nat × Nat)
    (hsize : bytes.length ≤ 10 * 1024 * 1024) (hdec : decode bytes = some img) :
    (infer (preprocess_image img.1 img.2) = .returns .falsyOrEmpty →
      handlerCall true true (some bytes) decode infer = ⟨some 0, false, none⟩)
    ∧ (∀ classIds, infer (preprocess_image img.1 img.2) = .returns (.withBoxes classIds) →
      handlerCall true true (some bytes) decode infer
        = ⟨some ((classIds.filter (fun c => c = 0)).length), true, none⟩)
    ∧ (∀ classIds, infer (preprocess_image img.1 img.2) = .returns (.withBoxes classIds) →
      (∀ c ∈ classIds, c ≠ 0) →
      handlerCall true true (some bytes) decode infer = ⟨some 0, true, none⟩)
    ∧ (infer (preprocess_image img.1 img.2) = .returns .badBoxes →
      handlerCall true true (some bytes) decode infer
        = respError (String.toList "Failed to process detection results")) := by
  have hns : ¬ (10 * 1024 * 1024 < bytes.length) := Nat.not_lt.mpr hsize
  have base : handlerCall true true (some bytes) decode infer
      = match infer (preprocess_image img.1 img.2) with
        | InferOutcome.raises => respError (String.toList "Model inference failed")
        | InferOutcome.returns DetectionResults.falsyOrEmpty => ⟨some 0, false, none⟩
        | InferOutcome.returns (DetectionResults.withBoxes classIds) =>
            ⟨some ((classIds.filter (fun c => c = 0)).length), true, none⟩
        | InferOutcome.returns DetectionResults.badBoxes =>
            respError (String.toList "Failed to process detection results") := by
    simp [handlerCall, hns, hdec]
  refine ⟨?_, ?_, ?_, ?_⟩
  · intro h
    rw [base, h]
  · intro classIds h
    rw [base, h]
  · intro classIds h hnone
    rw [base, h]
    have hfil : classIds.filter (fun c => c = 0) = [] := by
      rw [List.filter_eq_nil_iff]
      intro c hc
      simpa using hnone c hc
    simp [hfil]
  · intro h
    rw [base, h]

/-- Witness for C1: three boxes of classes 0, 1, 0 give count 2. -/
theorem C1_person_count_witness :
    handlerCall true true (some [0]) (fun _ => some (1, 1))
        (fun _ => .returns (.withBoxes [0, 1, 0]))
      = ⟨some (([0, 1, 0].filter (fun c => c = 0)).length), true, none⟩ :=
  (C1_person_count (fun _ => some (1, 1)) (fun _ => .returns (.withBoxes [0, 1, 0]))
    [0] (1, 1) (by decide) rfl).2.1 [0, 1, 0] rfl

/-! ## Claim C3: missing versus empty input -/

/-- Counterexample to C3 as stated: an empty byte string passes the key and
size checks and reaches decoding, which fails, so `__call__` returns
`Failed to process image` — not the missing-input error. -/
theorem C3_counterexample :
    handlerCall true true (some []) (fun _ => none) (fun _ => .raises)
        = respError (String.toList "Failed to process image")
    ∧ handlerCall true true (some []) (fun _ => none) (fun _ => .raises)
        ≠ respError (String.toList "No \x27inputs\x27 key in request data") := by
  decide

/-- C3 (amended): only an absent `inputs` key is rejected up front with the
missing-input error; an empty byte string is not specially detected — it
proceeds to image decoding and, being undecodable, fails there with the
image-processing error instead. -/
theorem C3_missing_input (decode : List Nat → Option (Nat × Nat))
    (infer : Nat × Nat → InferOutcome) (hdec : decode [] = none) :
    handlerCall true true none decode infer
        = respError (String.toList "No \x27inputs\x27 key in request data")
    ∧ handlerCall true true (some []) decode infer
        = respError (String.toList "Failed to process image") := by
  constructor
  · rfl
  · simp [handlerCall, hdec]

/-- Witness for C3: the concrete undecodable empty byte string. -/
theorem C3_missing_input_witness :
    handlerCall true true none (fun _ => none) (fun _ => .raises)
        = respError (String.toList "No \x27inputs\x27 key in request data")
    ∧ handlerCall true true (some []) (fun _ => none) (fun _ => .raises)
        = respError (String.toList "Failed to process image") :=
  C3_missing_input (fun _ => none) (fun _ => .raises) rfl

/-! ## Claim C4: response shape -/

/-- Counterexample to C4 as stated: the empty-detections fast path returns
`{"count": 0}` alone — the count is populated but `processing_time` is not,
so the success shape is only partially populated. -/
theorem C4_counterexample :
    (handlerCall true true (some [0]) (fun _ => some (1, 1))
        (fun _ => .returns .falsyOrEmpty)).count = some 0
    ∧ (handlerCall true true (some [0]) (fun _ => some (1, 1))
        (fun _ => .returns .falsyOrEmpty)).hasProcessingTime = false
    ∧ (handlerCall true true (some [0]) (fun _ => some (1, 1))
        (fun _ => .returns .falsyOrEmpty)).error = none := by
  decide

/-- C4 (amended): every response of `__call__` is either exactly an error
(an error message, no count, no processing time), or a success carrying a
count, a populated `processing_time`, and no error, or the one exception:
the empty-detections fast path, which returns count 0 with no
`processing_time` — and that shape arises only when the request passed every
check, the image decoded, and the detection result was empty/falsy. -/
theorem C4_response_shape (initialized hasModel : Bool) (inputs : Option (List Nat))
    (decode : List Nat → Option (Nat × Nat)) (infer : Nat × Nat → InferOutcome) :
    (∃ msg, handlerCall initialized hasModel inputs decode infer = respError msg)
    ∨ (∃ n, handlerCall initialized hasModel inputs decode infer = ⟨some n, true, none⟩)
    ∨ (handlerCall initialized hasModel inputs decode infer = ⟨some 0, false, none⟩
        ∧ ∃ bytes img, inputs = some bytes ∧ decode bytes = some img
            ∧ infer (preprocess_image img.1 img.2)
                = InferOutcome.returns DetectionResults.falsyOrEmpty) := by
  unfold handlerCall
  split
  · exact Or.inl ⟨_, rfl⟩
  · split
    · exact Or.inl ⟨_, rfl⟩
    · rename_i bytes
      split
      · exact Or.inl ⟨_, rfl⟩
      · split
        · exact Or.inl ⟨_, rfl⟩
        · rename_i img hdec
          split
          · exact Or.inl ⟨_, rfl⟩
          · rename_i hinf
            exact Or.inr (Or.inr ⟨rfl, bytes, img, rfl, hdec, hinf⟩)
          · exact Or.inr (Or.inl ⟨_, rfl⟩)
          · exact Or.inl ⟨_, rfl⟩

/-! ## Claim C5: preprocessing resize target -/

/-- C5 at the failing input: a 1077 by 1077 image resizes to 639 by 639 —
the float quotient `640 / 1077` rounds below `640/1077`, so
`int(1077 * (640/1077))` truncates to 639, one short of the 640 target; a
1280 by 960 image does hit 640, and images within bound are unchanged. -/
theorem C5_resize_misses_target :
    preprocess_image 1077 1077 = (639, 639)
    ∧ preprocess_image 1280 960 = (640, 480)
    ∧ preprocess_image 640 480 = (640, 480)
    ∧ preprocess_image 1000 1000 = (640, 640) := by
  decide

/-! ## Claim C2: the initialization race -/

/-- Counterexample to C2 as stated: no lock guards initialization, and this
concrete interleaving of two first callers of `EndpointHandler()` performs
the underlying model load twice (both callers still terminate). -/
theorem C2_counterexample :
    (sysRun (initSys 2) [0, 0, 0, 0, 1, 1, 1, 0, 1, 0, 1]).shared.loads = 2
    ∧ (sysRun (initSys 2) [0, 0, 0, 0, 1, 1, 1, 0, 1, 0, 1]).threads
        = [Pc.done, Pc.done] := by
  decide

/-- C2 (amended): initialization is not lock-guarded; when first callers run
strictly one after another, exactly one model load is performed and every
caller terminates observing the initialized state, but interleaved first
callers can each run the load (see the counterexample schedule). -/
theorem C2_sequential_single_load (n : Nat) :
    seqCallers (n + 1) = ⟨true, true, true, 1⟩
    ∧ ∀ s : SState, (runSteps 6 (s, Pc.checkInstance)).2 = Pc.done := by
  constructor
  · induction n with
    | zero => rfl
    | succ m ih =>
      show callerRun (seqCallers (m + 1)) = _
      rw [ih]
      rfl
  · intro s
    rcases s with ⟨i, m, f, l⟩
    cases i <;> cases m <;> cases f <;> rfl

end CrowdCount
